import Mathlib

/-!
Verification of the batch loops of secret-populator (src/src/main.rs).

The program is a CLI with two subcommands. `create --count N --prefix P`
runs a loop over i = 1..=N issuing `create_secret` calls; a
`ResourceExistsException` is benign (a line is printed and a u64 error
counter is incremented), any other error aborts via `return Err(..)`.
`delete --count N --prefix P` issues `delete_secret` calls with
`force_delete_without_recovery(true)`; `ResourceNotFoundException` is
benign (a line is printed, no counter exists), any other error aborts.
After the create loop, `Created {count} secrets` is set as the progress
message only when the counter is 0; after the delete loop,
`Deleted {count} secrets` is set unconditionally.

The remote service is modelled as a stateful oracle
`step : σ → Nat → Outcome × σ` giving the outcome of the call made at a
given index; the run is a recursion over the index list
`List.range' 1 count = [1, .., count]`, threading the oracle state and an
observable run state (calls issued, lines printed via `pb.println`,
progress messages set via `pb.set_message`, the error counter, and the
fatal error returned, if any).
-/

namespace SecretPopulator

/-- Rust u64 modulus, for the `errors` counter arithmetic. -/
def u64Mod : Nat := 2 ^ 64

/-- Outcome of one `create_secret` call as classified by the match on
`e.into_service_error()` in the Create arm: success,
`ResourceExistsException`, or any other error (carried as a message). -/
inductive CreateOutcome where
  | ok
  | resourceExists
  | otherError (msg : String)
deriving DecidableEq, Repr

/-- Outcome of one `delete_secret` call as classified by the match in the
Delete arm: success, `ResourceNotFoundException`, or any other error. -/
inductive DeleteOutcome where
  | ok
  | resourceNotFound
  | otherError (msg : String)
deriving DecidableEq, Repr

/-- One `create_secret` request as built in the loop:
`.name(&name).secret_string(format!("secret-value-{}", i))`. -/
structure CreateCall where
  name : String
  secretString : String
deriving DecidableEq, Repr

/-- One `delete_secret` request as built in the loop:
`.secret_id(&name).force_delete_without_recovery(true)`. -/
structure DeleteCall where
  secretId : String
  forceDeleteWithoutRecovery : Bool
deriving DecidableEq, Repr

/-- `let name = format!("{}-{}", prefix, i)` (src/src/main.rs:60 and 98). -/
def secretName (pfx : String) (i : Nat) : String :=
  pfx ++ "-" ++ toString i

/-- `format!("secret-value-{}", i)` (src/src/main.rs:65). -/
def secretPayload (i : Nat) : String :=
  "secret-value-" ++ toString i

/-- Observable state of a create run: remote calls issued in order, lines
printed with `pb.println`, progress messages set with `pb.set_message`
(in order of setting; the visible message is the last one), the u64
`errors` counter, and the fatal error returned by `main`, if any. -/
structure CreateSt where
  calls : List CreateCall
  printed : List String
  messages : List String
  errors : Nat
  fatal : Option String
deriving DecidableEq, Repr

/-- State at entry of the Create arm: no calls, nothing printed,
`let mut errors: u64 = 0`, no fatal error. -/
def initCreateSt : CreateSt :=
  { calls := [], printed := [], messages := [], errors := 0, fatal := none }

/-- Observable state of a delete run. The Delete arm declares no error
counter, so the state carries none. -/
structure DeleteSt where
  calls : List DeleteCall
  printed : List String
  messages : List String
  fatal : Option String
deriving DecidableEq, Repr

/-- State at entry of the Delete arm. -/
def initDeleteSt : DeleteSt :=
  { calls := [], printed := [], messages := [], fatal := none }

/-- The create loop (src/src/main.rs:59-78) over a list of indices,
threading the oracle state. Each iteration issues the call, then matches:
`Ok` sets the message `Created secret: {name}`;
`ResourceExistsException` prints `Secret already exists: {name}` and does
`errors = errors + 1` (u64); any other error does `return Err(err.into())`,
ending the run at once. -/
def runCreateAux {σ : Type} (step : σ → Nat → CreateOutcome × σ) (pfx : String) :
    List Nat → σ → CreateSt → σ × CreateSt
  | [], s, st => (s, st)
  | i :: rest, s, st =>
    let name := secretName pfx i
    let st1 : CreateSt := { st with calls := st.calls ++ [⟨name, secretPayload i⟩] }
    match step s i with
    | (.ok, s') =>
        runCreateAux step pfx rest s'
          { st1 with messages := st1.messages ++ ["Created secret: " ++ name] }
    | (.resourceExists, s') =>
        runCreateAux step pfx rest s'
          { st1 with printed := st1.printed ++ ["Secret already exists: " ++ name],
                     errors := (st1.errors + 1) % u64Mod }
    | (.otherError msg, s') => (s', { st1 with fatal := some msg })

/-- The full Create arm: run the loop over `1..=count`; on a fatal error
`main` has already returned `Err`, otherwise
`if errors == 0 { pb.set_message(format!("Created {count} secrets")) }`
(src/src/main.rs:80-82). -/
def runCreate {σ : Type} (step : σ → Nat → CreateOutcome × σ) (pfx : String)
    (count : Nat) (s0 : σ) : σ × CreateSt :=
  let r := runCreateAux step pfx (List.range' 1 count) s0 initCreateSt
  if r.2.fatal.isSome then r
  else if r.2.errors = 0 then
    (r.1, { r.2 with messages := r.2.messages ++ ["Created " ++ toString count ++ " secrets"] })
  else r

/-- The delete loop (src/src/main.rs:97-115): each iteration issues
`delete_secret` with `force_delete_without_recovery(true)`, then matches:
`Ok` sets `Deleted secret: {name}`; `ResourceNotFoundException` prints
`Secret not found: {name}` and continues; any other error returns `Err`. -/
def runDeleteAux {σ : Type} (step : σ → Nat → DeleteOutcome × σ) (pfx : String) :
    List Nat → σ → DeleteSt → σ × DeleteSt
  | [], s, st => (s, st)
  | i :: rest, s, st =>
    let name := secretName pfx i
    let st1 : DeleteSt := { st with calls := st.calls ++ [⟨name, true⟩] }
    match step s i with
    | (.ok, s') =>
        runDeleteAux step pfx rest s'
          { st1 with messages := st1.messages ++ ["Deleted secret: " ++ name] }
    | (.resourceNotFound, s') =>
        runDeleteAux step pfx rest s'
          { st1 with printed := st1.printed ++ ["Secret not found: " ++ name] }
    | (.otherError msg, s') => (s', { st1 with fatal := some msg })

/-- The full Delete arm: run the loop over `1..=count`; on a fatal error
`main` has returned `Err`, otherwise
`pb.set_message(format!("Deleted {count} secrets"))` unconditionally
(src/src/main.rs:117). -/
def runDelete {σ : Type} (step : σ → Nat → DeleteOutcome × σ) (pfx : String)
    (count : Nat) (s0 : σ) : σ × DeleteSt :=
  let r := runDeleteAux step pfx (List.range' 1 count) s0 initDeleteSt
  if r.2.fatal.isSome then r
  else (r.1, { r.2 with messages := r.2.messages ++ ["Deleted " ++ toString count ++ " secrets"] })

/-- Process exit status: `main` returns `Err(e)` exactly when a fatal
error occurred, which makes the process exit non-zero; otherwise it
returns `Ok(())` and exits zero. -/
def exitCode (fatal : Option String) : Nat :=
  if fatal.isSome then 1 else 0

/-! ### Unfolding lemmas for the loops -/

variable {σ : Type}

lemma runCreateAux_nil (step : σ → Nat → CreateOutcome × σ) (pfx : String) (s : σ)
    (st : CreateSt) : runCreateAux step pfx [] s st = (s, st) := rfl

lemma runCreateAux_cons_ok (step : σ → Nat → CreateOutcome × σ) (pfx : String)
    (i : Nat) (rest : List Nat) (s s' : σ) (st : CreateSt)
    (h : step s i = (.ok, s')) :
    runCreateAux step pfx (i :: rest) s st =
      runCreateAux step pfx rest s'
        { st with calls := st.calls ++ [⟨secretName pfx i, secretPayload i⟩],
                  messages := st.messages ++ ["Created secret: " ++ secretName pfx i] } := by
  simp [runCreateAux, h]

lemma runCreateAux_cons_exists (step : σ → Nat → CreateOutcome × σ) (pfx : String)
    (i : Nat) (rest : List Nat) (s s' : σ) (st : CreateSt)
    (h : step s i = (.resourceExists, s')) :
    runCreateAux step pfx (i :: rest) s st =
      runCreateAux step pfx rest s'
        { st with calls := st.calls ++ [⟨secretName pfx i, secretPayload i⟩],
                  printed := st.printed ++ ["Secret already exists: " ++ secretName pfx i],
                  errors := (st.errors + 1) % u64Mod } := by
  simp [runCreateAux, h]

lemma runCreateAux_cons_fatal (step : σ → Nat → CreateOutcome × σ) (pfx : String)
    (i : Nat) (rest : List Nat) (s s' : σ) (st : CreateSt) (msg : String)
    (h : step s i = (.otherError msg, s')) :
    runCreateAux step pfx (i :: rest) s st =
      (s', { st with calls := st.calls ++ [⟨secretName pfx i, secretPayload i⟩],
                     fatal := some msg }) := by
  simp [runCreateAux, h]

lemma runDeleteAux_nil (step : σ → Nat → DeleteOutcome × σ) (pfx : String) (s : σ)
    (st : DeleteSt) : runDeleteAux step pfx [] s st = (s, st) := rfl

lemma runDeleteAux_cons_ok (step : σ → Nat → DeleteOutcome × σ) (pfx : String)
    (i : Nat) (rest : List Nat) (s s' : σ) (st : DeleteSt)
    (h : step s i = (.ok, s')) :
    runDeleteAux step pfx (i :: rest) s st =
      runDeleteAux step pfx rest s'
        { st with calls := st.calls ++ [⟨secretName pfx i, true⟩],
                  messages := st.messages ++ ["Deleted secret: " ++ secretName pfx i] } := by
  simp [runDeleteAux, h]

lemma runDeleteAux_cons_notFound (step : σ → Nat → DeleteOutcome × σ) (pfx : String)
    (i : Nat) (rest : List Nat) (s s' : σ) (st : DeleteSt)
    (h : step s i = (.resourceNotFound, s')) :
    runDeleteAux step pfx (i :: rest) s st =
      runDeleteAux step pfx rest s'
        { st with calls := st.calls ++ [⟨secretName pfx i, true⟩],
                  printed := st.printed ++ ["Secret not found: " ++ secretName pfx i] } := by
  simp [runDeleteAux, h]

lemma runDeleteAux_cons_fatal (step : σ → Nat → DeleteOutcome × σ) (pfx : String)
    (i : Nat) (rest : List Nat) (s s' : σ) (st : DeleteSt) (msg : String)
    (h : step s i = (.otherError msg, s')) :
    runDeleteAux step pfx (i :: rest) s st =
      (s', { st with calls := st.calls ++ [⟨secretName pfx i, true⟩],
                     fatal := some msg }) := by
  simp [runDeleteAux, h]

/-! ### Calls issued by a run that is not aborted -/

lemma runCreateAux_calls_of_fatal_none (step : σ → Nat → CreateOutcome × σ)
    (pfx : String) (idxs : List Nat) :
    ∀ (s : σ) (st : CreateSt),
      (runCreateAux step pfx idxs s st).2.fatal = none →
      (runCreateAux step pfx idxs s st).2.calls
        = st.calls ++ idxs.map (fun i => ⟨secretName pfx i, secretPayload i⟩) := by
  induction idxs with
  | nil => intro s st _; simp [runCreateAux_nil]
  | cons i rest ih =>
    intro s st hfin
    rcases hstep : step s i with ⟨o, s'⟩
    cases o with
    | ok =>
      rw [runCreateAux_cons_ok step pfx i rest s s' st hstep] at hfin ⊢
      rw [ih _ _ hfin]
      simp
    | resourceExists =>
      rw [runCreateAux_cons_exists step pfx i rest s s' st hstep] at hfin ⊢
      rw [ih _ _ hfin]
      simp
    | otherError msg =>
      rw [runCreateAux_cons_fatal step pfx i rest s s' st msg hstep] at hfin
      simp at hfin

lemma runDeleteAux_calls_of_fatal_none (step : σ → Nat → DeleteOutcome × σ)
    (pfx : String) (idxs : List Nat) :
    ∀ (s : σ) (st : DeleteSt),
      (runDeleteAux step pfx idxs s st).2.fatal = none →
      (runDeleteAux step pfx idxs s st).2.calls
        = st.calls ++ idxs.map (fun i => ⟨secretName pfx i, true⟩) := by
  induction idxs with
  | nil => intro s st _; simp [runDeleteAux_nil]
  | cons i rest ih =>
    intro s st hfin
    rcases hstep : step s i with ⟨o, s'⟩
    cases o with
    | ok =>
      rw [runDeleteAux_cons_ok step pfx i rest s s' st hstep] at hfin ⊢
      rw [ih _ _ hfin]
      simp
    | resourceNotFound =>
      rw [runDeleteAux_cons_notFound step pfx i rest s s' st hstep] at hfin ⊢
      rw [ih _ _ hfin]
      simp
    | otherError msg =>
      rw [runDeleteAux_cons_fatal step pfx i rest s s' st msg hstep] at hfin
      simp at hfin

/-- The post-loop summary step changes neither the calls nor the fatal
field of a create run. -/
lemma runCreate_calls_fatal (step : σ → Nat → CreateOutcome × σ) (pfx : String)
    (count : Nat) (s0 : σ) :
    (runCreate step pfx count s0).2.calls
        = (runCreateAux step pfx (List.range' 1 count) s0 initCreateSt).2.calls
      ∧ (runCreate step pfx count s0).2.fatal
        = (runCreateAux step pfx (List.range' 1 count) s0 initCreateSt).2.fatal := by
  simp only [runCreate]
  constructor
  · split
    · rfl
    · split <;> rfl
  · split
    · rfl
    · split <;> rfl

/-- The post-loop summary step changes neither the calls nor the fatal
field of a delete run. -/
lemma runDelete_calls_fatal (step : σ → Nat → DeleteOutcome × σ) (pfx : String)
    (count : Nat) (s0 : σ) :
    (runDelete step pfx count s0).2.calls
        = (runDeleteAux step pfx (List.range' 1 count) s0 initDeleteSt).2.calls
      ∧ (runDelete step pfx count s0).2.fatal
        = (runDeleteAux step pfx (List.range' 1 count) s0 initDeleteSt).2.fatal := by
  simp only [runDelete]
  constructor
  · split
    · rfl
    · rfl
  · split
    · rfl
    · rfl

/-! ### Runs that hit a fatal error stop at the failing index -/

lemma runCreateAux_fatal_at (step : σ → Nat → CreateOutcome × σ) (pfx : String)
    (i : Nat) (post : List Nat) (msg : String) (s2 : σ) (pre : List Nat) :
    ∀ (s : σ) (st : CreateSt),
      (runCreateAux step pfx pre s st).2.fatal = none →
      step (runCreateAux step pfx pre s st).1 i = (.otherError msg, s2) →
      runCreateAux step pfx (pre ++ i :: post) s st =
        (s2, { (runCreateAux step pfx pre s st).2 with
               calls := (runCreateAux step pfx pre s st).2.calls
                          ++ [⟨secretName pfx i, secretPayload i⟩],
               fatal := some msg }) := by
  induction pre with
  | nil =>
    intro s st _ hstep
    exact runCreateAux_cons_fatal step pfx i post s s2 st msg hstep
  | cons j pre' ih =>
    intro s st hfin hstep
    rcases hj : step s j with ⟨o, s'⟩
    cases o with
    | ok =>
      rw [runCreateAux_cons_ok step pfx j pre' s s' st hj] at hfin hstep
      rw [List.cons_append, runCreateAux_cons_ok step pfx j (pre' ++ i :: post) s s' st hj,
          runCreateAux_cons_ok step pfx j pre' s s' st hj]
      exact ih _ _ hfin hstep
    | resourceExists =>
      rw [runCreateAux_cons_exists step pfx j pre' s s' st hj] at hfin hstep
      rw [List.cons_append, runCreateAux_cons_exists step pfx j (pre' ++ i :: post) s s' st hj,
          runCreateAux_cons_exists step pfx j pre' s s' st hj]
      exact ih _ _ hfin hstep
    | otherError m =>
      rw [runCreateAux_cons_fatal step pfx j pre' s s' st m hj] at hfin
      simp at hfin

lemma runDeleteAux_fatal_at (step : σ → Nat → DeleteOutcome × σ) (pfx : String)
    (i : Nat) (post : List Nat) (msg : String) (s2 : σ) (pre : List Nat) :
    ∀ (s : σ) (st : DeleteSt),
      (runDeleteAux step pfx pre s st).2.fatal = none →
      step (runDeleteAux step pfx pre s st).1 i = (.otherError msg, s2) →
      runDeleteAux step pfx (pre ++ i :: post) s st =
        (s2, { (runDeleteAux step pfx pre s st).2 with
               calls := (runDeleteAux step pfx pre s st).2.calls
                          ++ [⟨secretName pfx i, true⟩],
               fatal := some msg }) := by
  induction pre with
  | nil =>
    intro s st _ hstep
    exact runDeleteAux_cons_fatal step pfx i post s s2 st msg hstep
  | cons j pre' ih =>
    intro s st hfin hstep
    rcases hj : step s j with ⟨o, s'⟩
    cases o with
    | ok =>
      rw [runDeleteAux_cons_ok step pfx j pre' s s' st hj] at hfin hstep
      rw [List.cons_append, runDeleteAux_cons_ok step pfx j (pre' ++ i :: post) s s' st hj,
          runDeleteAux_cons_ok step pfx j pre' s s' st hj]
      exact ih _ _ hfin hstep
    | resourceNotFound =>
      rw [runDeleteAux_cons_notFound step pfx j pre' s s' st hj] at hfin hstep
      rw [List.cons_append, runDeleteAux_cons_notFound step pfx j (pre' ++ i :: post) s s' st hj,
          runDeleteAux_cons_notFound step pfx j pre' s s' st hj]
      exact ih _ _ hfin hstep
    | otherError m =>
      rw [runDeleteAux_cons_fatal step pfx j pre' s s' st m hj] at hfin
      simp at hfin

/-! ### Bounds on the number of calls and the error counter -/

lemma runCreateAux_calls_length_le (step : σ → Nat → CreateOutcome × σ) (pfx : String)
    (idxs : List Nat) :
    ∀ (s : σ) (st : CreateSt),
      (runCreateAux step pfx idxs s st).2.calls.length ≤ st.calls.length + idxs.length := by
  induction idxs with
  | nil => intro s st; simp [runCreateAux_nil]
  | cons i rest ih =>
    intro s st
    rcases hj : step s i with ⟨o, s'⟩
    cases o with
    | ok =>
      rw [runCreateAux_cons_ok step pfx i rest s s' st hj]
      have h := ih s'
        { st with calls := st.calls ++ [⟨secretName pfx i, secretPayload i⟩],
                  messages := st.messages ++ ["Created secret: " ++ secretName pfx i] }
      simp at h ⊢
      omega
    | resourceExists =>
      rw [runCreateAux_cons_exists step pfx i rest s s' st hj]
      have h := ih s'
        { st with calls := st.calls ++ [⟨secretName pfx i, secretPayload i⟩],
                  printed := st.printed ++ ["Secret already exists: " ++ secretName pfx i],
                  errors := (st.errors + 1) % u64Mod }
      simp at h ⊢
      omega
    | otherError m =>
      rw [runCreateAux_cons_fatal step pfx i rest s s' st m hj]
      simp

lemma runDeleteAux_calls_length_le (step : σ → Nat → DeleteOutcome × σ) (pfx : String)
    (idxs : List Nat) :
    ∀ (s : σ) (st : DeleteSt),
      (runDeleteAux step pfx idxs s st).2.calls.length ≤ st.calls.length + idxs.length := by
  induction idxs with
  | nil => intro s st; simp [runDeleteAux_nil]
  | cons i rest ih =>
    intro s st
    rcases hj : step s i with ⟨o, s'⟩
    cases o with
    | ok =>
      rw [runDeleteAux_cons_ok step pfx i rest s s' st hj]
      have h := ih s'
        { st with calls := st.calls ++ [⟨secretName pfx i, true⟩],
                  messages := st.messages ++ ["Deleted secret: " ++ secretName pfx i] }
      simp at h ⊢
      omega
    | resourceNotFound =>
      rw [runDeleteAux_cons_notFound step pfx i rest s s' st hj]
      have h := ih s'
        { st with calls := st.calls ++ [⟨secretName pfx i, true⟩],
                  printed := st.printed ++ ["Secret not found: " ++ secretName pfx i] }
      simp at h ⊢
      omega
    | otherError m =>
      rw [runDeleteAux_cons_fatal step pfx i rest s s' st m hj]
      simp

/-- The benign-error counter tracks exactly the printed already-exists
lines, and under a u64-sized bound on the remaining work the wrapping
increment never truncates. -/
lemma runCreateAux_errors_eq_printed (step : σ → Nat → CreateOutcome × σ) (pfx : String)
    (idxs : List Nat) :
    ∀ (s : σ) (st : CreateSt),
      st.errors = st.printed.length →
      st.printed.length + idxs.length < u64Mod →
      (runCreateAux step pfx idxs s st).2.errors
          = (runCreateAux step pfx idxs s st).2.printed.length
        ∧ (runCreateAux step pfx idxs s st).2.printed.length
          ≤ st.printed.length + idxs.length := by
  induction idxs with
  | nil => intro s st he _; simp [runCreateAux_nil, he]
  | cons i rest ih =>
    intro s st he hlen
    rcases hj : step s i with ⟨o, s'⟩
    cases o with
    | ok =>
      rw [runCreateAux_cons_ok step pfx i rest s s' st hj]
      have h := ih s'
        { st with calls := st.calls ++ [⟨secretName pfx i, secretPayload i⟩],
                  messages := st.messages ++ ["Created secret: " ++ secretName pfx i] }
        he (by simp at hlen ⊢; omega)
      refine ⟨h.1, ?_⟩
      have h2 := h.2
      simp at h2 ⊢
      omega
    | resourceExists =>
      rw [runCreateAux_cons_exists step pfx i rest s s' st hj]
      have hmod : (st.errors + 1) % u64Mod = st.errors + 1 := by
        apply Nat.mod_eq_of_lt
        simp only [List.length_cons] at hlen
        omega
      have h := ih s'
        { st with calls := st.calls ++ [⟨secretName pfx i, secretPayload i⟩],
                  printed := st.printed ++ ["Secret already exists: " ++ secretName pfx i],
                  errors := (st.errors + 1) % u64Mod }
        (by rw [hmod]; simp [he]) (by simp at hlen ⊢; omega)
      refine ⟨h.1, ?_⟩
      have h2 := h.2
      simp at h2 ⊢
      omega
    | otherError m =>
      rw [runCreateAux_cons_fatal step pfx i rest s s' st m hj]
      constructor
      · exact he
      · show st.printed.length ≤ st.printed.length + (i :: rest).length
        omega

/-! ### Argument parsing and the whole-process view -/

/-- Reads a nonempty run of decimal digits into a number, failing on any
other character. -/
def parseDecimalAux : List Char → Nat → Option Nat
  | [], acc => some acc
  | c :: cs, acc =>
      if c.isDigit then parseDecimalAux cs (acc * 10 + (c.toNat - 48)) else none

/-- The `--count` argument is declared as `NonZeroU64`
(src/src/main.rs:24 and 30), so clap parses the string through
`NonZeroU64`'s `FromStr`: an optional leading `+`, then a nonempty run
of decimal digits whose value fits in a u64 and is nonzero. In
particular it fails on "0" (the repository's own test
`test_count_zero_errors`, src/src/main.rs:129-135, asserts this). -/
def parseNonZeroU64 (s : String) : Option Nat :=
  let ds := match s.data with
            | '+' :: cs => cs
            | cs => cs
  match ds with
  | [] => none
  | _ =>
    match parseDecimalAux ds 0 with
    | some n => if 0 < n ∧ n < u64Mod then some n else none
    | none => none

/-- Observable result of one whole process invocation of the `create`
subcommand: whether clap exited with a usage error, the remote calls
issued, and the run state otherwise. `Args::parse()` runs at
src/src/main.rs:38, before the client is built and before any remote
call, so a parse failure leaves the call list empty. -/
structure CreateProcess where
  usageError : Bool
  calls : List CreateCall
  finalSt : Option CreateSt
deriving DecidableEq, Repr

/-- Observable result of one whole process invocation of the `delete`
subcommand. -/
structure DeleteProcess where
  usageError : Bool
  calls : List DeleteCall
  finalSt : Option DeleteSt
deriving DecidableEq, Repr

/-- The whole process for `create --count <countArg> --prefix <pfx>`:
parse the count, then run the Create arm of `main`. -/
def mainCreate {σ : Type} (step : σ → Nat → CreateOutcome × σ) (s0 : σ)
    (countArg : String) (pfx : String) : CreateProcess :=
  match parseNonZeroU64 countArg with
  | none => { usageError := true, calls := [], finalSt := none }
  | some c =>
      let r := runCreate step pfx c s0
      { usageError := false, calls := r.2.calls, finalSt := some r.2 }

/-- The whole process for `delete --count <countArg> --prefix <pfx>`. -/
def mainDelete {σ : Type} (step : σ → Nat → DeleteOutcome × σ) (s0 : σ)
    (countArg : String) (pfx : String) : DeleteProcess :=
  match parseNonZeroU64 countArg with
  | none => { usageError := true, calls := [], finalSt := none }
  | some c =>
      let r := runDelete step pfx c s0
      { usageError := false, calls := r.2.calls, finalSt := some r.2 }

/-! ### A service model and concrete oracles -/

/-- Service model for the idempotence property: `create_secret` fails
with `ResourceExistsException` exactly when the name is already stored,
and otherwise stores the name. -/
def createService (pfx : String) : List String → Nat → CreateOutcome × List String :=
  fun store i =>
    let name := secretName pfx i
    if name ∈ store then (.resourceExists, store) else (.ok, store ++ [name])

/-- Oracle whose create calls always succeed. -/
def createAllOk : Unit → Nat → CreateOutcome × Unit :=
  fun s _ => (.ok, s)

/-- Oracle whose create calls always hit `ResourceExistsException`. -/
def createAllExists : Unit → Nat → CreateOutcome × Unit :=
  fun s _ => (.resourceExists, s)

/-- Oracle whose create call at index 2 fails with a non-benign error. -/
def createFailAtTwo : Unit → Nat → CreateOutcome × Unit :=
  fun s i => (if i = 2 then .otherError "boom" else .ok, s)

/-- Oracle whose delete calls always succeed. -/
def deleteAllOk : Unit → Nat → DeleteOutcome × Unit :=
  fun s _ => (.ok, s)

/-- Oracle whose delete calls always hit `ResourceNotFoundException`. -/
def deleteAllNotFound : Unit → Nat → DeleteOutcome × Unit :=
  fun s _ => (.resourceNotFound, s)

/-- Oracle whose delete call at index 2 fails with a non-benign error. -/
def deleteFailAtTwo : Unit → Nat → DeleteOutcome × Unit :=
  fun s i => (if i = 2 then .otherError "boom" else .ok, s)

/-! ### Claim theorems -/

/-- C2: for every count ≥ 1 and every prefix, a create run in which no
fatal error occurs issues exactly `count` create calls, one per index
i = 1..count in strictly ascending order, with name `pfx-i` and payload
`secret-value-i`. -/
theorem create_issues_count_calls_in_order {σ : Type}
    (step : σ → Nat → CreateOutcome × σ) (pfx : String) (count : Nat) (s0 : σ)
    (_hcount : 1 ≤ count)
    (hfatal : (runCreate step pfx count s0).2.fatal = none) :
    (runCreate step pfx count s0).2.calls
        = (List.range' 1 count).map (fun i => ⟨secretName pfx i, secretPayload i⟩)
      ∧ (runCreate step pfx count s0).2.calls.length = count := by
  have hcf := runCreate_calls_fatal step pfx count s0
  rw [hcf.2] at hfatal
  have hc := runCreateAux_calls_of_fatal_none step pfx (List.range' 1 count) s0
    initCreateSt hfatal
  refine ⟨?_, ?_⟩
  · rw [hcf.1, hc]
    simp [initCreateSt]
  · rw [hcf.1, hc]
    simp [initCreateSt]

/-- Witness for `create_issues_count_calls_in_order`: the all-success
oracle, count 2, prefix "demo". -/
theorem create_issues_count_calls_in_order_witness :
    (runCreate createAllOk "demo" 2 ()).2.calls
        = (List.range' 1 2).map (fun i => ⟨secretName "demo" i, secretPayload i⟩)
      ∧ (runCreate createAllOk "demo" 2 ()).2.calls.length = 2 :=
  create_issues_count_calls_in_order createAllOk "demo" 2 () (by decide) (by rfl)

/-- C4: for every count ≥ 1 and every prefix, a delete run in which no
fatal error occurs issues exactly `count` delete calls, one per index
i = 1..count in ascending order, with name `pfx-i`, each with
`force_delete_without_recovery(true)`, i.e. no recovery window. -/
theorem delete_issues_count_forced_calls {σ : Type}
    (step : σ → Nat → DeleteOutcome × σ) (pfx : String) (count : Nat) (s0 : σ)
    (_hcount : 1 ≤ count)
    (hfatal : (runDelete step pfx count s0).2.fatal = none) :
    (runDelete step pfx count s0).2.calls
        = (List.range' 1 count).map (fun i => ⟨secretName pfx i, true⟩)
      ∧ (runDelete step pfx count s0).2.calls.length = count
      ∧ ∀ c ∈ (runDelete step pfx count s0).2.calls,
          c.forceDeleteWithoutRecovery = true := by
  have hcf := runDelete_calls_fatal step pfx count s0
  rw [hcf.2] at hfatal
  have hc := runDeleteAux_calls_of_fatal_none step pfx (List.range' 1 count) s0
    initDeleteSt hfatal
  refine ⟨?_, ?_, ?_⟩
  · rw [hcf.1, hc]
    simp [initDeleteSt]
  · rw [hcf.1, hc]
    simp [initDeleteSt]
  · intro c hcmem
    rw [hcf.1, hc] at hcmem
    simp [initDeleteSt] at hcmem
    obtain ⟨i, _, hci⟩ := hcmem
    rw [← hci]

/-- Witness for `delete_issues_count_forced_calls`: the all-success
oracle, count 2, prefix "demo". -/
theorem delete_issues_count_forced_calls_witness :
    (runDelete deleteAllOk "demo" 2 ()).2.calls
        = (List.range' 1 2).map (fun i => ⟨secretName "demo" i, true⟩)
      ∧ (runDelete deleteAllOk "demo" 2 ()).2.calls.length = 2
      ∧ ∀ c ∈ (runDelete deleteAllOk "demo" 2 ()).2.calls,
          c.forceDeleteWithoutRecovery = true :=
  delete_issues_count_forced_calls deleteAllOk "demo" 2 () (by decide) (by rfl)

/-- C7: a count argument of "0" is rejected at argument-parse time, with
no side effects: the process reports a usage error and zero create or
delete calls are issued. -/
theorem count_zero_rejected_before_calls :
    (∀ (σ : Type) (step : σ → Nat → CreateOutcome × σ) (s0 : σ) (pfx : String),
        (mainCreate step s0 "0" pfx).usageError = true
      ∧ (mainCreate step s0 "0" pfx).calls = [])
    ∧ (∀ (σ : Type) (step : σ → Nat → DeleteOutcome × σ) (s0 : σ) (pfx : String),
        (mainDelete step s0 "0" pfx).usageError = true
      ∧ (mainDelete step s0 "0" pfx).calls = []) := by
  constructor <;> (intro σ step s0 pfx; exact ⟨rfl, rfl⟩)

/-- C10: both loops terminate after finitely many iterations: a run
never makes more than `count` remote calls, and a run that is not
aborted makes exactly `count` of them (one per index of `1..=count`). -/
theorem loops_make_exactly_count_calls :
    (∀ (σ : Type) (step : σ → Nat → CreateOutcome × σ) (pfx : String) (count : Nat)
        (s0 : σ), 1 ≤ count →
        (runCreate step pfx count s0).2.calls.length ≤ count
      ∧ ((runCreate step pfx count s0).2.fatal = none →
          (runCreate step pfx count s0).2.calls.length = count))
    ∧ (∀ (σ : Type) (step : σ → Nat → DeleteOutcome × σ) (pfx : String) (count : Nat)
        (s0 : σ), 1 ≤ count →
        (runDelete step pfx count s0).2.calls.length ≤ count
      ∧ ((runDelete step pfx count s0).2.fatal = none →
          (runDelete step pfx count s0).2.calls.length = count)) := by
  constructor
  · intro σ step pfx count s0 _
    have hcf := runCreate_calls_fatal step pfx count s0
    constructor
    · rw [hcf.1]
      have h := runCreateAux_calls_length_le step pfx (List.range' 1 count) s0 initCreateSt
      simpa [initCreateSt] using h
    · intro hfatal
      rw [hcf.2] at hfatal
      have hc := runCreateAux_calls_of_fatal_none step pfx (List.range' 1 count) s0
        initCreateSt hfatal
      rw [hcf.1, hc]
      simp [initCreateSt]
  · intro σ step pfx count s0 _
    have hcf := runDelete_calls_fatal step pfx count s0
    constructor
    · rw [hcf.1]
      have h := runDeleteAux_calls_length_le step pfx (List.range' 1 count) s0 initDeleteSt
      simpa [initDeleteSt] using h
    · intro hfatal
      rw [hcf.2] at hfatal
      have hc := runDeleteAux_calls_of_fatal_none step pfx (List.range' 1 count) s0
        initDeleteSt hfatal
      rw [hcf.1, hc]
      simp [initDeleteSt]

/-- Witness for `loops_make_exactly_count_calls`: count 1 with the
all-success oracles. -/
theorem loops_make_exactly_count_calls_witness :
    ((runCreate createAllOk "p" 1 ()).2.calls.length ≤ 1
      ∧ (runCreate createAllOk "p" 1 ()).2.calls.length = 1)
    ∧ ((runDelete deleteAllOk "p" 1 ()).2.calls.length ≤ 1
      ∧ (runDelete deleteAllOk "p" 1 ()).2.calls.length = 1) :=
  ⟨⟨(loops_make_exactly_count_calls.1 Unit createAllOk "p" 1 () (by decide)).1,
    (loops_make_exactly_count_calls.1 Unit createAllOk "p" 1 () (by decide)).2 (by rfl)⟩,
   ⟨(loops_make_exactly_count_calls.2 Unit deleteAllOk "p" 1 () (by decide)).1,
    (loops_make_exactly_count_calls.2 Unit deleteAllOk "p" 1 () (by decide)).2 (by rfl)⟩⟩

/-- C1: in both runs, if the call at some index i fails with any error
other than the whitelisted benign condition, the run aborts at once: the
call list ends with the call for i (none is issued for later indices),
the error is propagated as the run's fatal result, and the process exits
non-zero. -/
theorem fatal_error_aborts_run :
    (∀ (σ : Type) (step : σ → Nat → CreateOutcome × σ) (pfx : String) (count : Nat)
        (s0 s2 : σ) (pre : List Nat) (i : Nat) (post : List Nat) (msg : String),
      List.range' 1 count = pre ++ i :: post →
      (runCreateAux step pfx pre s0 initCreateSt).2.fatal = none →
      step (runCreateAux step pfx pre s0 initCreateSt).1 i = (.otherError msg, s2) →
      runCreate step pfx count s0 =
          (s2, { (runCreateAux step pfx pre s0 initCreateSt).2 with
                 calls := (runCreateAux step pfx pre s0 initCreateSt).2.calls
                            ++ [⟨secretName pfx i, secretPayload i⟩],
                 fatal := some msg })
        ∧ exitCode (runCreate step pfx count s0).2.fatal ≠ 0)
    ∧ (∀ (σ : Type) (step : σ → Nat → DeleteOutcome × σ) (pfx : String) (count : Nat)
        (s0 s2 : σ) (pre : List Nat) (i : Nat) (post : List Nat) (msg : String),
      List.range' 1 count = pre ++ i :: post →
      (runDeleteAux step pfx pre s0 initDeleteSt).2.fatal = none →
      step (runDeleteAux step pfx pre s0 initDeleteSt).1 i = (.otherError msg, s2) →
      runDelete step pfx count s0 =
          (s2, { (runDeleteAux step pfx pre s0 initDeleteSt).2 with
                 calls := (runDeleteAux step pfx pre s0 initDeleteSt).2.calls
                            ++ [⟨secretName pfx i, true⟩],
                 fatal := some msg })
        ∧ exitCode (runDelete step pfx count s0).2.fatal ≠ 0) := by
  constructor
  · intro σ step pfx count s0 s2 pre i post msg hsplit hfin hstep
    have hrun : runCreateAux step pfx (List.range' 1 count) s0 initCreateSt =
        (s2, { (runCreateAux step pfx pre s0 initCreateSt).2 with
               calls := (runCreateAux step pfx pre s0 initCreateSt).2.calls
                          ++ [⟨secretName pfx i, secretPayload i⟩],
               fatal := some msg }) := by
      rw [hsplit]
      exact runCreateAux_fatal_at step pfx i post msg s2 pre s0 initCreateSt hfin hstep
    have hc : runCreate step pfx count s0 =
        (s2, { (runCreateAux step pfx pre s0 initCreateSt).2 with
               calls := (runCreateAux step pfx pre s0 initCreateSt).2.calls
                          ++ [⟨secretName pfx i, secretPayload i⟩],
               fatal := some msg }) := by
      simp only [runCreate]
      rw [hrun]
      simp
    refine ⟨hc, ?_⟩
    rw [hc]
    simp [exitCode]
  · intro σ step pfx count s0 s2 pre i post msg hsplit hfin hstep
    have hrun : runDeleteAux step pfx (List.range' 1 count) s0 initDeleteSt =
        (s2, { (runDeleteAux step pfx pre s0 initDeleteSt).2 with
               calls := (runDeleteAux step pfx pre s0 initDeleteSt).2.calls
                          ++ [⟨secretName pfx i, true⟩],
               fatal := some msg }) := by
      rw [hsplit]
      exact runDeleteAux_fatal_at step pfx i post msg s2 pre s0 initDeleteSt hfin hstep
    have hc : runDelete step pfx count s0 =
        (s2, { (runDeleteAux step pfx pre s0 initDeleteSt).2 with
               calls := (runDeleteAux step pfx pre s0 initDeleteSt).2.calls
                          ++ [⟨secretName pfx i, true⟩],
               fatal := some msg }) := by
      simp only [runDelete]
      rw [hrun]
      simp
    refine ⟨hc, ?_⟩
    rw [hc]
    simp [exitCode]

/-- Witness for `fatal_error_aborts_run`: count 3 runs whose call at
index 2 fails with a non-benign error stop after exactly two calls. -/
theorem fatal_error_aborts_run_witness :
    (runCreate createFailAtTwo "p" 3 () =
        ((), { calls := [⟨"p-1", "secret-value-1"⟩, ⟨"p-2", "secret-value-2"⟩],
               printed := [], messages := ["Created secret: p-1"], errors := 0,
               fatal := some "boom" })
      ∧ exitCode (runCreate createFailAtTwo "p" 3 ()).2.fatal ≠ 0)
    ∧ (runDelete deleteFailAtTwo "p" 3 () =
        ((), { calls := [⟨"p-1", true⟩, ⟨"p-2", true⟩],
               printed := [], messages := ["Deleted secret: p-1"],
               fatal := some "boom" })
      ∧ exitCode (runDelete deleteFailAtTwo "p" 3 ()).2.fatal ≠ 0) := by
  have h1 := fatal_error_aborts_run.1 Unit createFailAtTwo "p" 3 () () [1] 2 [3] "boom"
    (by rfl) (by rfl) (by rfl)
  have h2 := fatal_error_aborts_run.2 Unit deleteFailAtTwo "p" 3 () () [1] 2 [3] "boom"
    (by rfl) (by rfl) (by rfl)
  exact ⟨⟨h1.1.trans (by decide), h1.2⟩, ⟨h2.1.trans (by decide), h2.2⟩⟩

/-- C3: during the create loop, a `ResourceExistsException` outcome does
not abort the run: the iteration prints `Secret already exists: {name}`,
increments the benign counter by exactly 1, and continues with the next
index; a success outcome passes the counter on unchanged and a fatal
outcome ends the run with the counter unchanged. -/
theorem create_benign_conflict_continues {σ : Type}
    (step : σ → Nat → CreateOutcome × σ) (pfx : String) (i : Nat) (rest : List Nat)
    (s s' : σ) (st : CreateSt) :
    (step s i = (.resourceExists, s') → st.errors + 1 < u64Mod →
      runCreateAux step pfx (i :: rest) s st =
        runCreateAux step pfx rest s'
          { st with calls := st.calls ++ [⟨secretName pfx i, secretPayload i⟩],
                    printed := st.printed ++ ["Secret already exists: " ++ secretName pfx i],
                    errors := st.errors + 1 })
    ∧ (step s i = (.ok, s') →
      runCreateAux step pfx (i :: rest) s st =
        runCreateAux step pfx rest s'
          { st with calls := st.calls ++ [⟨secretName pfx i, secretPayload i⟩],
                    messages := st.messages ++ ["Created secret: " ++ secretName pfx i] })
    ∧ (∀ msg, step s i = (.otherError msg, s') →
      (runCreateAux step pfx (i :: rest) s st).2.errors = st.errors) := by
  refine ⟨?_, ?_, ?_⟩
  · intro h hlt
    rw [runCreateAux_cons_exists step pfx i rest s s' st h, Nat.mod_eq_of_lt hlt]
  · intro h
    exact runCreateAux_cons_ok step pfx i rest s s' st h
  · intro msg h
    rw [runCreateAux_cons_fatal step pfx i rest s s' st msg h]

/-- Witness for `create_benign_conflict_continues`: single iterations
from the loop's initial state with each of the three outcomes. -/
theorem create_benign_conflict_continues_witness :
    runCreateAux createAllExists "X" [1] () initCreateSt =
      ((), { calls := [⟨"X-1", "secret-value-1"⟩],
             printed := ["Secret already exists: X-1"], messages := [],
             errors := 1, fatal := none })
    ∧ runCreateAux createAllOk "X" [1] () initCreateSt =
      ((), { calls := [⟨"X-1", "secret-value-1"⟩], printed := [],
             messages := ["Created secret: X-1"], errors := 0, fatal := none })
    ∧ (runCreateAux createFailAtTwo "X" [2] () initCreateSt).2.errors
      = initCreateSt.errors := by
  have h1 := (create_benign_conflict_continues createAllExists "X" 1 [] () ()
    initCreateSt).1 (by rfl) (by decide)
  have h2 := (create_benign_conflict_continues createAllOk "X" 1 [] () ()
    initCreateSt).2.1 (by rfl)
  have h3 := (create_benign_conflict_continues createFailAtTwo "X" 2 [] () ()
    initCreateSt).2.2 "boom" (by rfl)
  exact ⟨h1.trans (by decide), h2.trans (by decide), h3⟩

/-- C5: after a create loop that was not aborted, the summary message
`Created {count} secrets` is set exactly when the benign counter is 0;
when at least one benign conflict occurred, the run state — and so its
last per-item message — is left exactly as the loop left it, with no
overriding summary. -/
theorem create_summary_iff_no_benign {σ : Type}
    (step : σ → Nat → CreateOutcome × σ) (pfx : String) (count : Nat) (s0 : σ)
    (hfatal : (runCreateAux step pfx (List.range' 1 count) s0 initCreateSt).2.fatal
      = none) :
    ((runCreate step pfx count s0).2.messages
        = (runCreateAux step pfx (List.range' 1 count) s0 initCreateSt).2.messages
            ++ ["Created " ++ toString count ++ " secrets"]
      ↔ (runCreateAux step pfx (List.range' 1 count) s0 initCreateSt).2.errors = 0)
    ∧ ((runCreateAux step pfx (List.range' 1 count) s0 initCreateSt).2.errors ≠ 0 →
        (runCreate step pfx count s0).2
          = (runCreateAux step pfx (List.range' 1 count) s0 initCreateSt).2) := by
  by_cases he : (runCreateAux step pfx (List.range' 1 count) s0 initCreateSt).2.errors = 0
  · have hc : runCreate step pfx count s0
        = ((runCreateAux step pfx (List.range' 1 count) s0 initCreateSt).1,
           { (runCreateAux step pfx (List.range' 1 count) s0 initCreateSt).2 with
             messages :=
               (runCreateAux step pfx (List.range' 1 count) s0 initCreateSt).2.messages
                 ++ ["Created " ++ toString count ++ " secrets"] }) := by
      have hns : (runCreateAux step pfx (List.range' 1 count) s0
          initCreateSt).2.fatal.isSome = false := by
        rw [hfatal]; rfl
      simp [runCreate, hns, he]
    refine ⟨?_, fun hne => absurd he hne⟩
    rw [hc]
    simp [he]
  · have hc : runCreate step pfx count s0
        = runCreateAux step pfx (List.range' 1 count) s0 initCreateSt := by
      have hns : (runCreateAux step pfx (List.range' 1 count) s0
          initCreateSt).2.fatal.isSome = false := by
        rw [hfatal]; rfl
      simp [runCreate, hns, he]
    refine ⟨?_, fun _ => by rw [hc]⟩
    rw [hc]
    constructor
    · intro hmsg
      have hlen := congrArg List.length hmsg
      simp at hlen
    · intro h0
      exact absurd h0 he

/-- Witness for `create_summary_iff_no_benign`: an all-success run with
count 1 sets the summary message. -/
theorem create_summary_iff_no_benign_witness :
    (runCreate createAllOk "p" 1 ()).2.messages
      = (runCreateAux createAllOk "p" (List.range' 1 1) () initCreateSt).2.messages
          ++ ["Created " ++ toString 1 ++ " secrets"]
    ∧ (runCreate createAllExists "q" 1 ()).2
      = (runCreateAux createAllExists "q" (List.range' 1 1) () initCreateSt).2 :=
  ⟨(create_summary_iff_no_benign createAllOk "p" 1 () (by rfl)).1.mpr (by rfl),
   (create_summary_iff_no_benign createAllExists "q" 1 () (by rfl)).2 (by decide)⟩

/-- C6: after a delete loop that was not aborted, the summary message
`Deleted {count} secrets` is set unconditionally — however many benign
not-found conditions occurred; and a `ResourceNotFoundException` outcome
prints `Secret not found: {name}` and continues with the next index,
changing nothing else in the run state (the Delete arm declares no
counter at all, so none is incremented). -/
theorem delete_summary_unconditional :
    (∀ (σ : Type) (step : σ → Nat → DeleteOutcome × σ) (pfx : String) (count : Nat)
        (s0 : σ),
      (runDeleteAux step pfx (List.range' 1 count) s0 initDeleteSt).2.fatal = none →
      (runDelete step pfx count s0).2.messages
        = (runDeleteAux step pfx (List.range' 1 count) s0 initDeleteSt).2.messages
            ++ ["Deleted " ++ toString count ++ " secrets"])
    ∧ (∀ (σ : Type) (step : σ → Nat → DeleteOutcome × σ) (pfx : String) (i : Nat)
        (rest : List Nat) (s s' : σ) (st : DeleteSt),
      step s i = (.resourceNotFound, s') →
      runDeleteAux step pfx (i :: rest) s st =
        runDeleteAux step pfx rest s'
          { st with calls := st.calls ++ [⟨secretName pfx i, true⟩],
                    printed := st.printed ++ ["Secret not found: " ++ secretName pfx i] }) := by
  constructor
  · intro σ step pfx count s0 hfatal
    simp only [runDelete]
    split
    · next hsome => rw [hfatal] at hsome; simp at hsome
    · rfl
  · intro σ step pfx i rest s s' st h
    exact runDeleteAux_cons_notFound step pfx i rest s s' st h

/-- Witness for `delete_summary_unconditional`: a count 2 run in which
both calls hit the benign not-found condition still sets the summary. -/
theorem delete_summary_unconditional_witness :
    (runDelete deleteAllNotFound "p" 2 ()).2.messages
      = (runDeleteAux deleteAllNotFound "p" (List.range' 1 2) () initDeleteSt).2.messages
          ++ ["Deleted " ++ toString 2 ++ " secrets"]
    ∧ runDeleteAux deleteAllNotFound "q" [1] () initDeleteSt =
      ((), { calls := [⟨"q-1", true⟩], printed := ["Secret not found: q-1"],
             messages := [], fatal := none }) := by
  have h1 := delete_summary_unconditional.1 Unit deleteAllNotFound "p" 2 () (by rfl)
  have h2 := delete_summary_unconditional.2 Unit deleteAllNotFound "q" 1 [] () ()
    initDeleteSt (by rfl)
  exact ⟨h1, h2.trans (by decide)⟩

/-- C8: against a store-based service where create fails with
already-exists exactly when the name is present and otherwise stores the
name, running `create --count 5 --prefix X` twice from a fresh store
gives a clean first run and, on the second run, exactly 5 benign
already-exists outcomes and no fatal error. -/
theorem create_idempotent_second_run :
    (runCreate (createService "X") "X" 5 []).2.fatal = none
    ∧ (runCreate (createService "X") "X" 5 []).2.errors = 0
    ∧ (runCreate (createService "X") "X" 5
        (runCreate (createService "X") "X" 5 []).1).2.errors = 5
    ∧ (runCreate (createService "X") "X" 5
        (runCreate (createService "X") "X" 5 []).1).2.printed.length = 5
    ∧ (runCreate (createService "X") "X" 5
        (runCreate (createService "X") "X" 5 []).1).2.fatal = none := by
  decide

/-- C9: over any index list, starting from the loop's initial state, the
benign counter equals the number of iterations so far whose outcome was
the already-exists condition (one printed conflict line per such
iteration), and never exceeds the number of indices processed; so for
fewer than 2^64 indices — always the case for a u64 count — the u64
increment never wraps. -/
theorem errors_counter_invariant {σ : Type} (step : σ → Nat → CreateOutcome × σ)
    (pfx : String) (idxs : List Nat) (s0 : σ)
    (hlen : idxs.length < u64Mod) :
    (runCreateAux step pfx idxs s0 initCreateSt).2.errors
        = (runCreateAux step pfx idxs s0 initCreateSt).2.printed.length
      ∧ (runCreateAux step pfx idxs s0 initCreateSt).2.errors ≤ idxs.length := by
  have h := runCreateAux_errors_eq_printed step pfx idxs s0 initCreateSt (by rfl)
    (by simpa [initCreateSt] using hlen)
  refine ⟨h.1, ?_⟩
  rw [h.1]
  simpa [initCreateSt] using h.2

/-- Witness for `errors_counter_invariant`: two benign iterations. -/
theorem errors_counter_invariant_witness :
    (runCreateAux createAllExists "X" [1, 2] () initCreateSt).2.errors
        = (runCreateAux createAllExists "X" [1, 2] () initCreateSt).2.printed.length
      ∧ (runCreateAux createAllExists "X" [1, 2] () initCreateSt).2.errors
        ≤ [1, 2].length :=
  errors_counter_invariant createAllExists "X" [1, 2] () (by decide)

end SecretPopulator
